import Mathlib

/-!
Verification of the bckt-photo metadata/template pipeline.

This file gives a shallow embedding, in Lean 4, of the pure core of the
bckt-photo tool (template expansion, path-component extraction, slug
generation, EXIF field resolution and friendly formatting, and the batch
walk control flow), and proves or refutes the behavioural claims made by
the natural-language specification.

Modelling conventions:
- Go strings are Lean `String`s; where character-level recursion is needed
  we work on `String.data : List Char`.
- Go `map[string]T` values are modelled as association lists with distinct
  keys.  Go randomizes map iteration order, so functions that `range` over
  a map take the iteration order explicitly as the order of the list;
  properties quantify over that order where it matters.
- Machine integers (`int`, i.e. int64) are `Int` with explicit range
  checks where the original code's parser enforces them.
- Library functions from the Go standard library (`strings.ReplaceAll`,
  `fmt.Sscanf`, `path/filepath`) are modelled faithfully from their
  documented semantics, specialized to the unix path flavour the tool
  runs under.  `strings.ToLower` is modelled by ASCII case mapping (the
  full Unicode table is irrelevant to every property proved here, which
  only distinguishes the characters `[a-z0-9-]`, space and `@`).
-/

/-- Boolean test that the first list is an initial run of the second
(models Go's internal prefix test used by `strings.Replace`). -/
def leadsWith : List Char → List Char → Bool
  | [], _ => true
  | _ :: _, [] => false
  | c :: p, d :: s => c == d && leadsWith p s

/-- Boolean substring occurrence test: does `p` occur contiguously in `s`
(models `strings.Contains`). -/
def containsSub : List Char → List Char → Bool
  | [], p => leadsWith p []
  | c :: rest, p => leadsWith p (c :: rest) || containsSub rest p

/-- Fuel-driven core of `strings.ReplaceAll` for a non-empty pattern `p`:
leftmost, non-overlapping replacement of `p` by `v`.  The fuel is the
length of the subject string, which suffices since every step consumes at
least one character. -/
def replAllAux (p v : List Char) : Nat → List Char → List Char
  | _, [] => []
  | 0, s => s
  | fuel + 1, c :: rest =>
    if leadsWith p (c :: rest) then
      v ++ replAllAux p v fuel (List.drop (p.length - 1) rest)
    else
      c :: replAllAux p v fuel rest

/-- Model of Go `strings.ReplaceAll(s, old, new)`.  An empty `old` makes
Go insert `new` at every rune boundary, including both ends. -/
def goReplaceAll (s old new : String) : String :=
  if old = "" then
    ⟨new.data ++ (s.data.map (fun c => c :: new.data)).flatten⟩
  else
    ⟨replAllAux old.data new.data s.data.length s.data⟩

/-- Decimal digits of a natural number (fuel-driven so that it is
structurally recursive and kernel-computable); models Go `%d` for a
non-negative operand. -/
def natDecAux : Nat → Nat → List Char
  | 0, _ => []
  | fuel + 1, n => if n < 10 then [Nat.digitChar n] else natDecAux fuel (n / 10) ++ [Nat.digitChar (n % 10)]

/-- Decimal rendering of a natural number. -/
def natDec (n : Nat) : String := ⟨natDecAux (n + 1) n⟩

/-- Value of a decimal digit string (used to verify `natDec`): fold the
digits into the number they denote. -/
def natVal (acc : Nat) : List Char → Nat
  | [] => acc
  | c :: rest => natVal (acc * 10 + (c.toNat - 48)) rest

/-- Model of Go `fmt.Sprintf("%d", n)` for an `int64` value. -/
def goFormatInt (n : Int) : String :=
  if n < 0 then "-" ++ natDec n.natAbs else natDec n.natAbs

/-- ASCII case mapping modelling `strings.ToLower` (see the file header
note on Unicode). -/
def goToLower (s : String) : String := ⟨s.data.map Char.toLower⟩

/-- Model of Go `strings.TrimPrefix`. -/
def goTrimPre (s pre : String) : String :=
  if leadsWith pre.data s.data then ⟨s.data.drop pre.data.length⟩ else s

/-- Model of Go `strings.TrimSuffix`. -/
def goTrimSuf (s suf : String) : String :=
  if leadsWith suf.data.reverse s.data.reverse then ⟨s.data.take (s.data.length - suf.data.length)⟩ else s

/-- Characters the `fmt` scanner treats as space (Go's `fmt` space table;
the newline is handled separately because `Sscanf` is newline-sensitive). -/
def isFmtSpace (c : Char) : Bool :=
  (0x9 ≤ c.toNat && c.toNat ≤ 0xd && c.toNat ≠ 0xa) || c.toNat == 0x20 ||
  c.toNat == 0x85 || c.toNat == 0xa0 || c.toNat == 0x1680 ||
  (0x2000 ≤ c.toNat && c.toNat ≤ 0x200a) || c.toNat == 0x2028 ||
  c.toNat == 0x2029 || c.toNat == 0x202f || c.toNat == 0x205f || c.toNat == 0x3000

/-- Space skipping of the `fmt` scanner in `Sscanf` mode: spaces are
consumed, and a newline in the input where the format has none is a scan
error (`none`). -/
def skipFmtSpaces : List Char → Option (List Char)
  | [] => some []
  | c :: rest =>
    if c = '\n' then none
    else if isFmtSpace c then skipFmtSpaces rest
    else some (c :: rest)

/-- Consume a maximal run of decimal digits, returning their value and the
rest of the input. -/
def scanDigits : List Char → Nat → Nat × List Char
  | [], acc => (acc, [])
  | c :: rest, acc =>
    if '0' ≤ c ∧ c ≤ '9' then scanDigits rest (acc * 10 + (c.toNat - '0'.toNat))
    else (acc, c :: rest)

/-- Whether the input starts with a decimal digit. -/
def startsWithDigit : List Char → Bool
  | [] => false
  | c :: _ => '0' ≤ c && c ≤ '9'

/-- Scan one `%d` operand as Go's `fmt` scanner does for an `int` (int64)
argument: an optional sign, at least one decimal digit, and an int64 range
check (out-of-range input is a scan error). -/
def scanInt64 (s : List Char) : Option (Int × List Char) :=
  match s with
  | [] => none
  | c :: rest =>
    let (neg, body) : Bool × List Char :=
      if c = '-' then (true, rest) else if c = '+' then (false, rest) else (false, c :: rest)
    if startsWithDigit body then
      let (n, remaining) := scanDigits body 0
      if neg then
        if n ≤ 9223372036854775808 then some (-(n : Int), remaining) else none
      else
        if n ≤ 9223372036854775807 then some ((n : Int), remaining) else none
    else none

/-- Model of `fmt.Sscanf(value, "%d/%d", &numerator, &denominator)`
returning the two integers when the scan succeeds (`err == nil`).  Each
`%d` skips leading `fmt` spaces (erroring on a newline), the literal `/`
must match exactly, and input after the second integer is ignored. -/
def goScanFrac (value : String) : Option (Int × Int) :=
  match skipFmtSpaces value.data with
  | none => none
  | some s1 =>
    match scanInt64 s1 with
    | none => none
    | some (n, s2) =>
      match s2 with
      | '/' :: s3 =>
        match skipFmtSpaces s3 with
        | none => none
        | some s4 =>
          match scanInt64 s4 with
          | none => none
          | some (d, _) => some (n, d)
      | _ => none

/-- Model of `fmt.Sprintf("%.1f", float64(n)/float64(d))`: the exact
rational n/d rounded to one decimal digit, ties to even.  (The Go code
rounds the nearest binary double instead; the two agree on every value
this development evaluates, and no property proved here depends on the
digits produced for tie-adjacent inputs.) -/
def formatFloat1 (n d : Int) : String :=
  let neg : Bool := (decide (n < 0)).xor (decide (d < 0))
  let scaled : Nat := 10 * n.natAbs
  let da : Nat := d.natAbs
  let q : Nat := scaled / da
  let r : Nat := scaled % da
  let rounded : Nat :=
    if da < 2 * r then q + 1
    else if 2 * r < da then q
    else if q % 2 = 0 then q else q + 1
  let body : String := natDec (rounded / 10) ++ "." ++ natDec (rounded % 10)
  if neg then "-" ++ body else body

/-- Embedding of `formatFriendlyValue` (part_005 lines 210-236): parse the
canonical value against `%d/%d`; on success with non-zero denominator,
render `aperture` as an f-stop, `focal_length` in millimetres and
`exposure` as the fraction with an `s` suffix (the numerator==1 branch
kept verbatim from the source); in every other case return the value
unchanged. -/
def formatFriendlyValue (fieldName value : String) : String :=
  match goScanFrac value with
  | some (numerator, denominator) =>
    if denominator ≠ 0 then
      if fieldName = "aperture" then
        "f/" ++ formatFloat1 numerator denominator
      else if fieldName = "focal_length" then
        formatFloat1 numerator denominator ++ "mm"
      else if fieldName = "exposure" then
        if numerator = 1 then value ++ "s" else value ++ "s"
      else value
    else value
  | none => value

/-- Split a string at every '/' (the behaviour of `strings.Split(s, "/")`
for this separator, and of `filepath.ToSlash` composition used by the
source on unix where `ToSlash` is the identity). -/
def splitSlashAux : List Char → List Char → List String
  | [], cur => [⟨cur.reverse⟩]
  | c :: rest, cur =>
    if c = '/' then ⟨cur.reverse⟩ :: splitSlashAux rest [] else splitSlashAux rest (c :: cur)

/-- Split on '/'. -/
def splitSlash (s : String) : List String := splitSlashAux s.data []

/-- Join path segments with '/'. -/
def joinSlash : List String → String
  | [] => ""
  | [s] => s
  | s :: rest => s ++ "/" ++ joinSlash rest

/-- Process the segments of a path for `Clean`: drop empty and "."
segments, resolve ".." against the accumulator (the accumulator is kept
reversed). -/
def cleanSegs (rooted : Bool) : List String → List String → List String
  | acc, [] => acc.reverse
  | acc, seg :: rest =>
    if seg = "" ∨ seg = "." then cleanSegs rooted acc rest
    else if seg = ".." then
      match acc with
      | [] => if rooted then cleanSegs rooted [] rest else cleanSegs rooted [".."] rest
      | a :: acc2 => if a = ".." then cleanSegs rooted (seg :: a :: acc2) rest else cleanSegs rooted acc2 rest
    else cleanSegs rooted (seg :: acc) rest

/-- Model of Go `path/filepath.Clean` for unix paths, via its documented
segment rules. -/
def cleanPath (p : String) : String :=
  if p = "" then "."
  else
    let rooted := leadsWith ['/'] p.data
    let segs := cleanSegs rooted [] (splitSlash p)
    let s := joinSlash segs
    if rooted then "/" ++ s
    else if s = "" then "." else s

/-- Drop trailing '/' characters. -/
def dropTrailingSlashes (cs : List Char) : List Char :=
  (cs.reverse.dropWhile (fun c => c = '/')).reverse

/-- The part of a path after its last '/'. -/
def afterLastSlash (cs : List Char) : List Char :=
  (cs.reverse.takeWhile (fun c => c ≠ '/')).reverse

/-- The part of a path up to and including its last '/' (empty if the path
has no '/'). -/
def upToLastSlash (cs : List Char) : List Char :=
  (cs.reverse.dropWhile (fun c => c ≠ '/')).reverse

/-- Model of Go `filepath.Base` (unix). -/
def goFilepathBase (path : String) : String :=
  if path = "" then "."
  else
    let cs := dropTrailingSlashes path.data
    if cs = [] then "/" else ⟨afterLastSlash cs⟩

/-- Model of Go `filepath.Dir` (unix): everything but the last element,
cleaned. -/
def goFilepathDir (path : String) : String :=
  cleanPath ⟨upToLastSlash path.data⟩

/-- Walk a reversed file name collecting the extension: the suffix that
starts at the last '.' of the final path element (models
`filepath.Ext`). -/
def lastDotSuffix : List Char → List Char → String
  | [], _ => ""
  | c :: rest, seen =>
    if c = '/' then ""
    else if c = '.' then ⟨'.' :: seen⟩
    else lastDotSuffix rest (c :: seen)

/-- Model of Go `filepath.Ext`. -/
def goFilepathExt (path : String) : String := lastDotSuffix path.data.reverse []

/-- Length of the longest common prefix of two segment lists. -/
def commonPrefixLen : List String → List String → Nat
  | a :: as1, b :: bs1 => if a = b then commonPrefixLen as1 bs1 + 1 else 0
  | _, _ => 0

/-- Segments of a cleaned path, with the root stripped. -/
def relSegs (cleaned : String) : List String :=
  let body := if leadsWith ['/'] cleaned.data then (⟨cleaned.data.drop 1⟩ : String) else cleaned
  if body = "" then [] else splitSlash body

/-- Model of Go `filepath.Rel(basepath, targpath)` (unix): `none` is the
error return.  Both paths are cleaned; they must agree on rootedness; the
result climbs out of the uncommon base segments with ".." and descends
into the uncommon target segments. -/
def goFilepathRel (basepath targpath : String) : Option String :=
  let base := cleanPath basepath
  let targ := cleanPath targpath
  if targ = base then some "."
  else
    let base := if base = "." then "" else base
    let baseRooted := leadsWith ['/'] base.data
    let targRooted := leadsWith ['/'] targ.data
    if baseRooted ≠ targRooted then none
    else
      let bsegs := relSegs base
      let tsegs := relSegs targ
      let k := commonPrefixLen bsegs tsegs
      let remB := bsegs.drop k
      let remT := tsegs.drop k
      match remB with
      | [] => some (joinSlash remT)
      | b0 :: _ =>
        if b0 = ".." then none
        else some (joinSlash (remB.map (fun _ => "..") ++ remT))

/-- `filepath.ToSlash` is the identity on unix. -/
def goToSlash (s : String) : String := s

/-- Association-list lookup modelling reading a Go `map[string]string`
(keys are distinct, so the first match is the binding). -/
def mapLookup : List (String × String) → String → Option String
  | [], _ => none
  | (k1, v1) :: rest, k => if k1 = k then some v1 else mapLookup rest k

/-- Association-list insertion modelling Go map assignment: replace the
binding if the key is present, otherwise append it. -/
def mapInsert : List (String × String) → String → String → List (String × String)
  | [], k, v => [(k, v)]
  | (k1, v1) :: rest, k, v => if k1 = k then (k, v) :: rest else (k1, v1) :: mapInsert rest k v

/-- The dirN components: `dir1` is the segment closest to the file
(`parts` is given in filesystem order and reversed, matching the
downward-counting loop of the source). -/
def numberedDirsAux : Nat → List String → List (String × String)
  | _, [] => []
  | n, p :: rest => ("dir" ++ natDec n, p) :: numberedDirsAux (n + 1) rest

/-- Numbered directory components for the reversed segment list. -/
def numberedDirs (parts : List String) : List (String × String) := numberedDirsAux 1 parts.reverse

/-- The filename/ext/basename components built first by
`extractPathComponents` (part_000 lines 157-169). -/
def pathCoreComponents (filePath : String) : List (String × String) :=
  let filename := goFilepathBase filePath
  let ext := goFilepathExt filename
  if ext ≠ "" then
    [("filename", filename), ("ext", goTrimPre ext "."), ("basename", goTrimSuf filename ext)]
  else
    [("filename", filename), ("ext", ""), ("basename", filename)]

/-- The dirN components added by `extractPathComponents` (part_000 lines
171-187): none when the relative directory is ".", empty, or `Rel`
fails. -/
def pathDirComponents (filePath baseDir : String) : List (String × String) :=
  match goFilepathRel baseDir (goFilepathDir filePath) with
  | none => []
  | some relDir =>
    if relDir = "." ∨ relDir = "" then []
    else numberedDirs (splitSlash (goToSlash relDir))

/-- Embedding of `extractPathComponents` (part_000 lines 152-190).  The
returned association list records the map's bindings in insertion order;
all keys are distinct. -/
def extractPathComponents (filePath baseDir : String) : List (String × String) :=
  pathCoreComponents filePath ++ pathDirComponents filePath baseDir

/-- Embedding of `expandTemplate` (part_000 lines 192-204): one
`ReplaceAll` pass per map key.  Go iterates the component map in an
unspecified (randomized) order, so the components are supplied here in
iteration order. -/
def expandTemplate (template : String) (components : List (String × String)) : String :=
  components.foldl (fun result kv => goReplaceAll result ("@" ++ kv.1) kv.2) template

/-- Characters kept by slug generation; Go rune comparisons are code-point
comparisons, so the ranges are stated on `Char.toNat` (97-122 is a-z,
48-57 is 0-9, 45 is the hyphen). -/
def isSlugChar (c : Char) : Bool :=
  (97 ≤ c.toNat && c.toNat ≤ 122) || (48 ≤ c.toNat && c.toNat ≤ 57) || c.toNat == 45

/-- Embedding of `generateSlug` (part_001 lines 121-138).  The date enters
only through `date.Unix()`, so it is passed as the unix-seconds integer. -/
def generateSlug (title : String) (dateUnix : Int) : String :=
  if title ≠ "" then
    let slug := goToLower title
    let slug := goReplaceAll slug " " "-"
    ⟨slug.data.filter (fun c => isSlugChar c)⟩
  else
    "photo-" ++ goFormatInt dateUnix

/-- Embedding of `isImageFile` (part_001 lines 140-151). -/
def isImageFile (path : String) : Bool :=
  let ext := goToLower (goFilepathExt path)
  [".jpg", ".jpeg", ".png", ".gif", ".bmp", ".tiff", ".tif", ".webp"].contains ext

/-- Decoded EXIF tag values as the source's `formatExifValue` distinguishes
them: the Go type switch cases `[]uint16`, `[]int`, `[]string`, `string`,
`[]exifcommon.Rational` (unsigned), `[]exifcommon.SignedRational`, and the
default arm whose generic `%v` rendering the decoder model supplies. -/
inductive ExifVal where
  | u16s (xs : List Nat)
  | ints (xs : List Int)
  | strs (xs : List String)
  | str (s : String)
  | rats (xs : List (Nat × Nat))
  | srats (xs : List (Int × Int))
  | other (rendered : String)

/-- One tag reached by the recursive IFD enumeration: its name and its
decoded value (`none` models a `Value()` error, which the search skips). -/
structure ExifEntry where
  tagName : String
  value : Option ExifVal

/-- A metadata container: the tags of the IFD tree in the order the
recursive enumeration of `EnumerateTagsRecursively` visits them. -/
def Ifd := List ExifEntry

/-- Embedding of `formatExifValue` (part_005 lines 161-207): first element
of arrays, fractions as "n/d" with a zero denominator treated as absent,
generic rendering otherwise. -/
def formatExifValue : ExifVal → String
  | .u16s xs => match xs with
    | [] => ""
    | x :: _ => natDec x
  | .ints xs => match xs with
    | [] => ""
    | x :: _ => goFormatInt x
  | .strs xs => match xs with
    | [] => ""
    | x :: _ => x
  | .str s => s
  | .rats xs => match xs with
    | [] => ""
    | (n, d) :: _ => if d = 0 then "" else natDec n ++ "/" ++ natDec d
  | .srats xs => match xs with
    | [] => ""
    | (n, d) :: _ => if d = 0 then "" else goFormatInt n ++ "/" ++ goFormatInt d
  | .other rendered => rendered

/-- Embedding of `findExifValue` (part_005 lines 133-159): scan the
enumeration order for the first tag with the wanted name whose value
decodes and formats to a non-empty string (the sentinel-error early stop
of the source is modelled as returning that value; decode errors and
empty renderings let the enumeration continue). -/
def findExifValue : Ifd → String → String
  | [], _ => ""
  | e :: rest, tagName =>
    if e.tagName = tagName then
      match e.value with
      | some v =>
        let s := formatExifValue v
        if s ≠ "" then s else findExifValue rest tagName
      | none => findExifValue rest tagName
    else findExifValue rest tagName

/-- The inner candidate loop shared by `extractTags` and
`extractExifFields`: try each EXIF tag name in priority order, stopping at
the first non-empty value (the `break`). -/
def resolveCandidates (ifd : Ifd) : List String → Option String
  | [] => none
  | c :: rest =>
    let value := findExifValue ifd c
    if value ≠ "" then some value else resolveCandidates ifd rest

/-- One field of the `extractTags` loop body (part_005 lines 81-96). -/
def tagStep (ifd : Ifd) (tagSet : List String) (entry : String × List String) : List String :=
  match resolveCandidates ifd entry.2 with
  | none => tagSet
  | some value =>
    let friendly := formatFriendlyValue entry.1 value
    if friendly ≠ "" then
      (if friendly ∈ tagSet then tagSet else tagSet ++ [friendly])
    else
      (if value ∈ tagSet then tagSet else tagSet ++ [value])

/-- Embedding of `extractTags` (part_005 lines 73-105).  The `tagSet` map
used for deduplication is modelled as a duplicate-free list in first
insertion order (Go iterates the set in an unspecified order when turning
it into a slice; every property stated about it here is order-independent
or compares two runs using the same order). -/
def extractTags (ifd : Option Ifd) (exifToTags : List (String × List String)) : List String :=
  match ifd with
  | none => []
  | some i => if exifToTags = [] then [] else exifToTags.foldl (tagStep i) []

/-- Comparison model for the fallback-branch claim: `tagStep` with the
`friendly == ""` fallback branch removed, so the friendly value is always
the one inserted. -/
def tagStepNoFallback (ifd : Ifd) (tagSet : List String) (entry : String × List String) : List String :=
  match resolveCandidates ifd entry.2 with
  | none => tagSet
  | some value =>
    let friendly := formatFriendlyValue entry.1 value
    if friendly ∈ tagSet then tagSet else tagSet ++ [friendly]

/-- `extractTags` with the fallback branch removed (comparison model). -/
def extractTagsNoFallback (ifd : Option Ifd) (exifToTags : List (String × List String)) : List String :=
  match ifd with
  | none => []
  | some i => if exifToTags = [] then [] else exifToTags.foldl (tagStepNoFallback i) []

/-- One field of the `extractExifFields` loop body (part_005 lines
113-128): bind the logical field to the first non-empty candidate value,
and add the sibling `_friendly` binding when the friendly rendering is
non-empty and differs. -/
def exifFieldStep (ifd : Ifd) (fields : List (String × String)) (entry : String × List String) : List (String × String) :=
  match resolveCandidates ifd entry.2 with
  | none => fields
  | some value =>
    let fields1 := mapInsert fields entry.1 value
    let friendly := formatFriendlyValue entry.1 value
    if friendly ≠ "" ∧ friendly ≠ value then
      mapInsert fields1 (entry.1 ++ "_friendly") friendly
    else fields1

/-- Embedding of `extractExifFields` (part_005 lines 107-131).  The field
mapping is supplied in Go map iteration order; its keys are distinct (they
are the keys of a Go map). -/
def extractExifFields (ifd : Option Ifd) (exifToTags : List (String × List String)) : List (String × String) :=
  match ifd with
  | none => []
  | some i => if exifToTags = [] then [] else exifToTags.foldl (exifFieldStep i) []

/-- One event of the `filepath.Walk` traversal as the callback in
`processDirectory` sees it: the visited path, whether it is a directory,
and the walk-infrastructure error argument (if any). -/
structure WalkEntry where
  path : String
  isDir : Bool
  err : Option String

/-- The per-photo outcome oracle: what `processSinglePhoto` returns for a
given image path and relative directory (`some msg` is a fatal per-item
error, which the callback logs and swallows). -/
def PhotoProc := String → String → Option String

/-- The walk callback of `processDirectory` (part_000 lines 107-142),
folded over the traversal sequence.  Accumulates the processed files with
their outcomes; a walk-infrastructure error or a `Rel` failure aborts the
walk (the callback returns a non-nil error), while a per-photo failure is
recorded and the walk continues. -/
def walkAux (baseDir : String) (proc : PhotoProc) :
    List WalkEntry → List (String × Option String) → List (String × Option String) × Option String
  | [], acc => (acc, none)
  | e :: rest, acc =>
    match e.err with
    | some msg => (acc, some msg)
    | none =>
      if e.isDir then walkAux baseDir proc rest acc
      else if ¬ isImageFile e.path then walkAux baseDir proc rest acc
      else
        match goFilepathRel baseDir e.path with
        | none => (acc, some "error calculating relative path")
        | some relPath =>
          let relDir := goFilepathDir relPath
          let relDir := if relDir = "." then "" else relDir
          walkAux baseDir proc rest (acc ++ [(e.path, proc e.path relDir)])

/-- Embedding of `processDirectory` (part_000 lines 103-150): run the walk
callback over the traversal sequence; the second component is the batch
error (`filepath.Walk`'s return), the first the processed files and their
individual outcomes. -/
def processDirectory (baseDir : String) (proc : PhotoProc) (entries : List WalkEntry) :
    List (String × Option String) × Option String :=
  walkAux baseDir proc entries []

theorem leadsWith_false_of_head_ne {a c : Char} {p s : List Char} (h : a ≠ c) :
    leadsWith (a :: p) (c :: s) = false := by
  simp [leadsWith, h]

theorem containsSub_cons_eq (c : Char) (rest p : List Char) :
    containsSub (c :: rest) p = (leadsWith p (c :: rest) || containsSub rest p) := rfl

theorem replAllAux_of_no_occurrence {p : List Char} (v : List Char) :
    ∀ (fuel : Nat) (s : List Char), containsSub s p = false → replAllAux p v fuel s = s := by
  intro fuel s
  induction s generalizing fuel with
  | nil => intro _; cases fuel <;> rfl
  | cons c rest ih =>
    intro hocc
    rw [containsSub_cons_eq, Bool.or_eq_false_iff] at hocc
    cases fuel with
    | zero => rfl
    | succ fuel =>
      show (if leadsWith p (c :: rest) then _ else _) = _
      rw [hocc.1, if_neg (by simp)]
      rw [ih fuel hocc.2]

theorem goReplaceAll_of_no_occurrence {s old : String} (new : String) (hp : old ≠ "")
    (hocc : containsSub s.data old.data = false) : goReplaceAll s old new = s := by
  unfold goReplaceAll
  rw [if_neg hp]
  rw [replAllAux_of_no_occurrence new.data s.data.length s.data hocc]

theorem containsSub_single_of_all_ne {a : Char} {s : List Char}
    (h : ∀ c ∈ s, c ≠ a) : containsSub s [a] = false := by
  induction s with
  | nil => rfl
  | cons c rest ih =>
    rw [containsSub_cons_eq, Bool.or_eq_false_iff]
    constructor
    · exact leadsWith_false_of_head_ne (fun he => h c (by simp) (by rw [he]))
    · exact ih (fun c hc => h c (by simp [hc]))

theorem isSlugChar_digitChar {m : Nat} (h : m < 10) : isSlugChar (Nat.digitChar m) = true := by
  revert h
  revert m
  decide

theorem natDecAux_chars (fuel n : Nat) : ∀ c ∈ natDecAux fuel n, isSlugChar c = true := by
  induction fuel generalizing n with
  | zero => intro c hc; simp [natDecAux] at hc
  | succ fuel ih =>
    intro c hc
    unfold natDecAux at hc
    by_cases h : n < 10
    · rw [if_pos h] at hc
      simp at hc
      rw [hc]
      exact isSlugChar_digitChar h
    · rw [if_neg h] at hc
      rw [List.mem_append] at hc
      rcases hc with hc | hc
      · exact ih (n / 10) c hc
      · simp at hc
        rw [hc]
        exact isSlugChar_digitChar (Nat.mod_lt _ (by norm_num))

theorem natDec_chars (n : Nat) : ∀ c ∈ (natDec n).data, isSlugChar c = true :=
  natDecAux_chars (n + 1) n

theorem goFormatInt_chars (n : Int) : ∀ c ∈ (goFormatInt n).data, isSlugChar c = true := by
  intro c hc
  unfold goFormatInt at hc
  by_cases h : n < 0
  · rw [if_pos h] at hc
    rw [String.data_append, List.mem_append] at hc
    rcases hc with hc | hc
    · simp at hc
      rw [hc]; decide
    · exact natDec_chars _ c hc
  · rw [if_neg h] at hc
    exact natDec_chars _ c hc

theorem generateSlug_chars (title : String) (d : Int) :
    ∀ c ∈ (generateSlug title d).data, isSlugChar c = true := by
  intro c hc
  unfold generateSlug at hc
  by_cases h : title ≠ ""
  · rw [if_pos h] at hc
    simp only at hc
    exact (List.mem_filter.mp hc).2
  · rw [if_neg h] at hc
    rw [String.data_append, List.mem_append] at hc
    rcases hc with hc | hc
    · simp at hc
      rcases hc with h1 | h1 | h1 | h1 | h1 | h1 <;> (rw [h1]; decide)
    · exact goFormatInt_chars _ c hc

theorem map_toLower_fixed {l : List Char} (h : ∀ c ∈ l, isSlugChar c = true) :
    l.map Char.toLower = l := by
  induction l with
  | nil => rfl
  | cons c rest ih =>
    have hc : isSlugChar c = true := h c (by simp)
    have hfix : Char.toLower c = c := by
      unfold Char.toLower
      simp only [isSlugChar, Bool.or_eq_true, Bool.and_eq_true, decide_eq_true_eq,
        beq_iff_eq] at hc
      rw [if_neg (by omega)]
    simp only [List.map_cons, hfix, ih (fun c hc => h c (by simp [hc]))]

theorem generateSlug_fixed {y : String} (d : Int) (hne : y ≠ "")
    (hch : ∀ c ∈ y.data, isSlugChar c = true) : generateSlug y d = y := by
  unfold generateSlug
  rw [if_pos hne]
  simp only [goToLower]
  rw [map_toLower_fixed hch]
  have hnosp : goReplaceAll ⟨y.data⟩ " " "-" = ⟨y.data⟩ := by
    have : (⟨y.data⟩ : String) = y := by cases y; rfl
    rw [this]
    apply goReplaceAll_of_no_occurrence _ (by decide)
    apply containsSub_single_of_all_ne
    intro c hc he
    have := hch c hc
    rw [he] at this
    exact absurd this (by decide)
  rw [hnosp]
  have : (⟨y.data⟩ : String) = y := by cases y; rfl
  rw [this]
  rw [List.filter_eq_self.mpr hch]

theorem append_friendly_ne (f : String) : f ++ "_friendly" ≠ f := by
  intro h
  have hl := congrArg String.length h
  rw [String.length_append] at hl
  have h9 : ("_friendly" : String).length = 9 := rfl
  omega

theorem friendly_append_inj {f g : String} (h : f ++ "_friendly" = g ++ "_friendly") : f = g := by
  apply String.ext
  have hd := congrArg String.data h
  rw [String.data_append, String.data_append] at hd
  exact List.append_cancel_right hd

theorem string_append_ne_empty_right (a b : String) (hb : b.data ≠ []) : a ++ b ≠ "" := by
  intro h
  have := congrArg String.data h
  rw [String.data_append] at this
  simp at this
  exact hb this.2

theorem string_append_ne_empty_left (a b : String) (ha : a.data ≠ []) : a ++ b ≠ "" := by
  intro h
  have := congrArg String.data h
  rw [String.data_append] at this
  simp at this
  exact ha this.1

theorem formatFriendlyValue_ne_empty {value : String} (fieldName : String) (hv : value ≠ "") :
    formatFriendlyValue fieldName value ≠ "" := by
  unfold formatFriendlyValue
  cases goScanFrac value with
  | none => exact hv
  | some nd =>
    obtain ⟨n, d⟩ := nd
    dsimp only
    by_cases hd : d ≠ 0
    · rw [if_pos hd]
      by_cases ha : fieldName = "aperture"
      · rw [if_pos ha]
        exact string_append_ne_empty_left _ _ (by decide)
      · rw [if_neg ha]
        by_cases hf : fieldName = "focal_length"
        · rw [if_pos hf]
          exact string_append_ne_empty_right _ _ (by decide)
        · rw [if_neg hf]
          by_cases he : fieldName = "exposure"
          · rw [if_pos he]
            by_cases h1 : n = 1
            · rw [if_pos h1]
              exact string_append_ne_empty_right _ _ (by decide)
            · rw [if_neg h1]
              exact string_append_ne_empty_right _ _ (by decide)
          · rw [if_neg he]
            exact hv
    · rw [if_neg hd]
      exact hv

theorem resolveCandidates_some_ne_empty {i : Ifd} {l : List String} {v : String}
    (h : resolveCandidates i l = some v) : v ≠ "" := by
  induction l with
  | nil => simp [resolveCandidates] at h
  | cons c rest ih =>
    unfold resolveCandidates at h
    by_cases hc : findExifValue i c ≠ ""
    · simp only [if_pos hc] at h
      cases h
      exact hc
    · simp only [if_neg hc] at h
      exact ih h

theorem resolveCandidates_cons (i : Ifd) (c : String) (rest : List String) :
    resolveCandidates i (c :: rest) =
      if findExifValue i c ≠ "" then some (findExifValue i c) else resolveCandidates i rest := rfl

theorem resolveCandidates_first_found (i : Ifd) (c : String) (post : List String) :
    ∀ pre : List String, (∀ c2 ∈ pre, findExifValue i c2 = "") → findExifValue i c ≠ "" →
    resolveCandidates i (pre ++ c :: post) = some (findExifValue i c) := by
  intro pre
  induction pre with
  | nil =>
    intro _ hc
    rw [List.nil_append, resolveCandidates_cons, if_pos hc]
  | cons p rest ih =>
    intro hall hc
    have hp : findExifValue i p = "" := hall p (by simp)
    rw [List.cons_append, resolveCandidates_cons, if_neg (by simp [hp])]
    exact ih (fun c2 hc2 => hall c2 (by simp [hc2])) hc

theorem mapLookup_mapInsert_self (l : List (String × String)) (k v : String) :
    mapLookup (mapInsert l k v) k = some v := by
  induction l with
  | nil => simp [mapInsert, mapLookup]
  | cons kv rest ih =>
    obtain ⟨k1, v1⟩ := kv
    unfold mapInsert
    by_cases h : k1 = k
    · rw [if_pos h]
      simp [mapLookup]
    · rw [if_neg h]
      unfold mapLookup
      rw [if_neg h]
      exact ih

theorem mapLookup_mapInsert_ne (l : List (String × String)) {k k2 : String} (v : String)
    (h : k2 ≠ k) : mapLookup (mapInsert l k v) k2 = mapLookup l k2 := by
  induction l with
  | nil =>
    show (if k = k2 then some v else mapLookup [] k2) = mapLookup [] k2
    rw [if_neg (fun he => h he.symm)]
  | cons kv rest ih =>
    obtain ⟨k1, v1⟩ := kv
    unfold mapInsert
    by_cases h1 : k1 = k
    · rw [if_pos h1]
      unfold mapLookup
      rw [if_neg (fun he => h he.symm), if_neg (fun he => h (h1 ▸ he).symm)]
    · rw [if_neg h1]
      unfold mapLookup
      by_cases h2 : k1 = k2
      · rw [if_pos h2, if_pos h2]
      · rw [if_neg h2, if_neg h2]
        exact ih

theorem exifFieldStep_lookup_ne (i : Ifd) (fields : List (String × String))
    (entry : String × List String) {f : String}
    (h1 : entry.1 ≠ f) (h2 : entry.1 ++ "_friendly" ≠ f) :
    mapLookup (exifFieldStep i fields entry) f = mapLookup fields f := by
  unfold exifFieldStep
  cases resolveCandidates i entry.2 with
  | none => rfl
  | some v =>
    simp only
    by_cases hfr : formatFriendlyValue entry.1 v ≠ "" ∧ formatFriendlyValue entry.1 v ≠ v
    · rw [if_pos hfr, mapLookup_mapInsert_ne _ _ (fun he => h2 he.symm),
        mapLookup_mapInsert_ne _ _ (fun he => h1 he.symm)]
    · rw [if_neg hfr, mapLookup_mapInsert_ne _ _ (fun he => h1 he.symm)]

theorem foldl_exifFieldStep_lookup_ne (i : Ifd) {f : String} :
    ∀ (m : List (String × List String)) (acc : List (String × String)),
    (∀ e ∈ m, e.1 ≠ f ∧ e.1 ++ "_friendly" ≠ f) →
    mapLookup (m.foldl (exifFieldStep i) acc) f = mapLookup acc f := by
  intro m
  induction m with
  | nil => intro acc _; rfl
  | cons e rest ih =>
    intro acc hall
    rw [List.foldl_cons]
    rw [ih _ (fun e2 he2 => hall e2 (by simp [he2]))]
    exact exifFieldStep_lookup_ne i acc e (hall e (by simp)).1 (hall e (by simp)).2

theorem expandTemplate_nil (t : String) : expandTemplate t [] = t := rfl

theorem expandTemplate_cons (t k v : String) (rest : List (String × String)) :
    expandTemplate t ((k, v) :: rest) = expandTemplate (goReplaceAll t ("@" ++ k) v) rest := rfl

theorem expandTemplate_unchanged (t : String) :
    ∀ comps : List (String × String),
    (∀ p ∈ comps, containsSub t.data ("@" ++ p.1).data = false) → expandTemplate t comps = t := by
  intro comps
  induction comps generalizing t with
  | nil => intro _; rfl
  | cons kv rest ih =>
    intro hall
    obtain ⟨k, v⟩ := kv
    rw [expandTemplate_cons]
    have hrepl : goReplaceAll t ("@" ++ k) v = t := by
      apply goReplaceAll_of_no_occurrence _ (string_append_ne_empty_left _ _ (by decide))
      exact hall (k, v) (by simp)
    rw [hrepl]
    exact ih t (fun p hp => hall p (by simp [hp]))

theorem walkAux_outcome_indep (baseDir : String) (p1 p2 : PhotoProc) :
    ∀ (entries : List WalkEntry) (acc1 acc2 : List (String × Option String)),
    acc1.map Prod.fst = acc2.map Prod.fst →
    (walkAux baseDir p1 entries acc1).1.map Prod.fst = (walkAux baseDir p2 entries acc2).1.map Prod.fst ∧
    (walkAux baseDir p1 entries acc1).2 = (walkAux baseDir p2 entries acc2).2 := by
  intro entries
  induction entries with
  | nil => intro acc1 acc2 h; exact ⟨h, rfl⟩
  | cons e rest ih =>
    intro acc1 acc2 h
    unfold walkAux
    cases e.err with
    | some msg => exact ⟨h, rfl⟩
    | none =>
      by_cases hdir : e.isDir
      · simp only [if_pos hdir]
        exact ih acc1 acc2 h
      · simp only [if_neg hdir]
        by_cases himg : isImageFile e.path
        · rw [if_neg (not_not_intro himg), if_neg (not_not_intro himg)]
          cases goFilepathRel baseDir e.path with
          | none => exact ⟨h, rfl⟩
          | some relPath =>
            apply ih
            simp [h]
        · rw [if_pos himg, if_pos himg]
          exact ih acc1 acc2 h

theorem mapLookup_append_of_found {l1 : List (String × String)} {k : String} {v : String}
    (l2 : List (String × String)) (h : mapLookup l1 k = some v) :
    mapLookup (l1 ++ l2) k = some v := by
  induction l1 with
  | nil => simp [mapLookup] at h
  | cons kv rest ih =>
    obtain ⟨k1, v1⟩ := kv
    unfold mapLookup at h
    rw [List.cons_append]
    unfold mapLookup
    by_cases h1 : k1 = k
    · rw [if_pos h1] at h
      rw [if_pos h1]
      exact h
    · rw [if_neg h1] at h
      rw [if_neg h1]
      exact ih h

theorem exifFieldStep_eq (i : Ifd) (fields : List (String × String)) (f : String) (cands : List String) :
    exifFieldStep i fields (f, cands) =
      match resolveCandidates i cands with
      | none => fields
      | some value =>
        let fields1 := mapInsert fields f value
        let friendly := formatFriendlyValue f value
        if friendly ≠ "" ∧ friendly ≠ value then mapInsert fields1 (f ++ "_friendly") friendly
        else fields1 := rfl

theorem extractExifFields_lookup_pair (i : Ifd) (m : List (String × List String))
    (f : String) (cands : List String)
    (hnd : (m.map Prod.fst).Nodup)
    (hcol : ∀ p ∈ m, ∀ q ∈ m, p.1 ≠ q.1 ++ "_friendly")
    (hmem : (f, cands) ∈ m) :
    mapLookup (extractExifFields (some i) m) f = resolveCandidates i cands ∧
    mapLookup (extractExifFields (some i) m) (f ++ "_friendly") =
      (match resolveCandidates i cands with
       | none => none
       | some v =>
         if formatFriendlyValue f v ≠ "" ∧ formatFriendlyValue f v ≠ v
         then some (formatFriendlyValue f v) else none) := by
  obtain ⟨m1, m2, rfl⟩ := List.append_of_mem hmem
  have hm_ne : m1 ++ (f, cands) :: m2 ≠ [] := by simp
  have hmap : ((m1 ++ (f, cands) :: m2).map Prod.fst) = m1.map Prod.fst ++ f :: m2.map Prod.fst := by
    simp
  rw [hmap, List.nodup_append] at hnd
  obtain ⟨hnd1, hnd2, hdisj⟩ := hnd
  have hf_not_m2 : f ∉ m2.map Prod.fst := (List.nodup_cons.mp hnd2).1
  have hmemf : (f, cands) ∈ m1 ++ (f, cands) :: m2 := by simp
  have hne_m2 : ∀ e ∈ m2, e.1 ≠ f := by
    intro e he hef
    exact hf_not_m2 (hef ▸ List.mem_map_of_mem Prod.fst he)
  have hne_m1 : ∀ e ∈ m1, e.1 ≠ f := by
    intro e he hef
    exact List.disjoint_left.mp hdisj (hef ▸ List.mem_map_of_mem Prod.fst he) (by simp)
  have hfr_ne : ∀ e, e ∈ m1 ∨ e ∈ m2 → e.1 ++ "_friendly" ≠ f := by
    intro e he hef
    have hem : e ∈ m1 ++ (f, cands) :: m2 := by
      rcases he with h | h
      · simp [h]
      · simp [h]
    exact hcol (f, cands) hmemf e hem hef.symm
  have hcol_e : ∀ e, e ∈ m1 ∨ e ∈ m2 → e.1 ≠ f ++ "_friendly" := by
    intro e he
    have hem : e ∈ m1 ++ (f, cands) :: m2 := by
      rcases he with h | h
      · simp [h]
      · simp [h]
    exact hcol e hem (f, cands) hmemf
  have hacc1_f : mapLookup (m1.foldl (exifFieldStep i) []) f = none := by
    rw [foldl_exifFieldStep_lookup_ne i m1 [] (fun e he => ⟨hne_m1 e he, hfr_ne e (Or.inl he)⟩)]
    rfl
  have hacc1_fr : mapLookup (m1.foldl (exifFieldStep i) []) (f ++ "_friendly") = none := by
    rw [foldl_exifFieldStep_lookup_ne i m1 []
      (fun e he => ⟨hcol_e e (Or.inl he), fun hef => hne_m1 e he (friendly_append_inj hef)⟩)]
    rfl
  unfold extractExifFields
  dsimp only
  rw [if_neg hm_ne, List.foldl_append, List.foldl_cons]
  constructor
  · rw [foldl_exifFieldStep_lookup_ne i m2 _ (fun e he => ⟨hne_m2 e he, hfr_ne e (Or.inr he)⟩)]
    rw [exifFieldStep_eq]
    cases hres : resolveCandidates i cands with
    | none => exact hacc1_f
    | some v =>
      dsimp only
      by_cases hfr : formatFriendlyValue f v ≠ "" ∧ formatFriendlyValue f v ≠ v
      · rw [if_pos hfr, mapLookup_mapInsert_ne _ _ (fun he => append_friendly_ne f he.symm),
          mapLookup_mapInsert_self]
      · rw [if_neg hfr, mapLookup_mapInsert_self]
  · rw [foldl_exifFieldStep_lookup_ne i m2 _
      (fun e he => ⟨hcol_e e (Or.inr he), fun hef => hne_m2 e he (friendly_append_inj hef)⟩)]
    rw [exifFieldStep_eq]
    cases hres : resolveCandidates i cands with
    | none => exact hacc1_fr
    | some v =>
      dsimp only
      by_cases hfr : formatFriendlyValue f v ≠ "" ∧ formatFriendlyValue f v ≠ v
      · rw [if_pos hfr, if_pos hfr, mapLookup_mapInsert_self]
      · rw [if_neg hfr, if_neg hfr, mapLookup_mapInsert_ne _ _ (append_friendly_ne f)]
        exact hacc1_fr

theorem natVal_append (l1 : List Char) : ∀ (acc : Nat) (l2 : List Char),
    natVal acc (l1 ++ l2) = natVal (natVal acc l1) l2 := by
  induction l1 with
  | nil => intro acc l2; rfl
  | cons c rest ih =>
    intro acc l2
    show natVal (acc * 10 + (c.toNat - 48)) (rest ++ l2) = _
    rw [ih]
    rfl

theorem digitChar_toNat : ∀ m : Nat, m < 10 → (Nat.digitChar m).toNat = 48 + m := by
  intro m h
  interval_cases m <;> rfl

theorem natDecAux_val : ∀ (fuel n : Nat), n < 10 ^ fuel → ∀ acc : Nat,
    natVal acc (natDecAux fuel n) = acc * 10 ^ (natDecAux fuel n).length + n := by
  intro fuel
  induction fuel with
  | zero =>
    intro n h acc
    rw [pow_zero] at h
    have hn : n = 0 := by omega
    subst hn
    have h0 : natDecAux 0 0 = [] := rfl
    rw [h0]
    show acc = acc * 10 ^ (0 : Nat) + 0
    rw [pow_zero]
    omega
  | succ fuel ih =>
    intro n h acc
    by_cases h10 : n < 10
    · have he : natDecAux (fuel + 1) n = [Nat.digitChar n] := by
        show (if n < 10 then _ else _) = _
        rw [if_pos h10]
      rw [he]
      show acc * 10 + ((Nat.digitChar n).toNat - 48) = acc * 10 ^ (1 : Nat) + n
      rw [digitChar_toNat n h10, pow_one]
      omega
    · have he : natDecAux (fuel + 1) n = natDecAux fuel (n / 10) ++ [Nat.digitChar (n % 10)] := by
        show (if n < 10 then _ else _) = _
        rw [if_neg h10]
      rw [he, natVal_append]
      have hdiv : n / 10 < 10 ^ fuel := by
        rw [Nat.div_lt_iff_lt_mul (by norm_num : 0 < 10)]
        calc n < 10 ^ (fuel + 1) := h
          _ = 10 ^ fuel * 10 := by rw [pow_succ]
      rw [ih (n / 10) hdiv acc]
      show (acc * 10 ^ (natDecAux fuel (n / 10)).length + n / 10) * 10 +
        ((Nat.digitChar (n % 10)).toNat - 48) = _
      rw [digitChar_toNat (n % 10) (Nat.mod_lt _ (by norm_num)), List.length_append]
      have hdm : n / 10 * 10 + n % 10 = n := by omega
      have hsub : 48 + n % 10 - 48 = n % 10 := by omega
      rw [hsub]
      calc (acc * 10 ^ (natDecAux fuel (n / 10)).length + n / 10) * 10 + n % 10
          = acc * (10 ^ (natDecAux fuel (n / 10)).length * 10) + (n / 10 * 10 + n % 10) := by ring
        _ = acc * 10 ^ ((natDecAux fuel (n / 10)).length + [Nat.digitChar (n % 10)].length) + n := by
            rw [hdm, List.length_singleton, pow_succ]

theorem natDec_val (n : Nat) : natVal 0 (natDec n).data = n := by
  have h : n < 10 ^ (n + 1) :=
    lt_of_lt_of_le (Nat.lt_pow_self (by norm_num) n)
      (Nat.pow_le_pow_right (by norm_num) (Nat.le_succ n))
  have := natDecAux_val (n + 1) n h 0
  simpa using this

theorem natDec_inj {a b : Nat} (h : natDec a = natDec b) : a = b := by
  have h2 := congrArg (fun s => natVal 0 s.data) h
  simp only at h2
  rwa [natDec_val, natDec_val] at h2

theorem dirKey_inj {a b : Nat} (h : "dir" ++ natDec a = "dir" ++ natDec b) : a = b := by
  apply natDec_inj
  apply String.ext
  have h2 := congrArg String.data h
  rw [String.data_append, String.data_append] at h2
  exact List.append_cancel_left h2

theorem core_key_ne_dir (s : String) :
    ("filename" : String) ≠ "dir" ++ s ∧ ("ext" : String) ≠ "dir" ++ s ∧
    ("basename" : String) ≠ "dir" ++ s := by
  refine ⟨?_, ?_, ?_⟩ <;>
  · intro h
    have h2 := congrArg String.data h
    rw [String.data_append] at h2
    have h3 : ("dir" : String).data ++ s.data = 'd' :: 'i' :: 'r' :: s.data := rfl
    rw [h3] at h2
    injection h2 with h5
    exact absurd h5 (by decide)

theorem mapLookup_core_skip (fn e b : String) (tail : List (String × String)) (k : String)
    (h1 : ("filename" : String) ≠ k) (h2 : ("ext" : String) ≠ k)
    (h3 : ("basename" : String) ≠ k) :
    mapLookup ([("filename", fn), ("ext", e), ("basename", b)] ++ tail) k = mapLookup tail k := by
  show (if "filename" = k then some fn
        else if "ext" = k then some e
        else if "basename" = k then some b
        else mapLookup tail k) = mapLookup tail k
  rw [if_neg h1, if_neg h2, if_neg h3]

theorem numberedDirsAux_lookup : ∀ (ps : List String) (n m : Nat),
    mapLookup (numberedDirsAux n ps) ("dir" ++ natDec m) =
      (if n ≤ m ∧ m < n + ps.length then some (ps.getD (m - n) "") else none) := by
  intro ps
  induction ps with
  | nil =>
    intro n m
    rw [if_neg (by simp)]
    rfl
  | cons p rest ih =>
    intro n m
    show (if "dir" ++ natDec n = "dir" ++ natDec m then some p
          else mapLookup (numberedDirsAux (n + 1) rest) ("dir" ++ natDec m)) = _
    rw [List.length_cons]
    by_cases hm : m = n
    · subst hm
      rw [if_pos rfl, if_pos (by omega)]
      simp
    · rw [if_neg (fun h => hm (dirKey_inj h).symm), ih (n + 1) m]
      by_cases hcond : n + 1 ≤ m ∧ m < n + 1 + rest.length
      · rw [if_pos hcond, if_pos (by omega)]
        have hidx : m - n = (m - (n + 1)) + 1 := by omega
        rw [hidx, List.getD_cons_succ]
      · rw [if_neg hcond, if_neg (by omega)]

/-- C1 counterexample: the claim that expandTemplate is single-generation
and deterministic for every template and mapping is false.  The component
mapping produced by extractPathComponents for the file "/b/@ext.jpg" under
base "/b" (whose basename value is the placeholder-looking string "@ext"),
iterated in two different orders — both permutations of the same map —
expands the template "@basename" to two different results, and in the
first order the value substituted for basename is itself re-expanded by
the later ext pass. -/
theorem expandTemplate_order_dependent_counterexample :
    List.Perm [("basename", "@ext"), ("ext", "jpg"), ("filename", "@ext.jpg")]
      (extractPathComponents "/b/@ext.jpg" "/b") ∧
    List.Perm [("ext", "jpg"), ("filename", "@ext.jpg"), ("basename", "@ext")]
      (extractPathComponents "/b/@ext.jpg" "/b") ∧
    expandTemplate "@basename" [("basename", "@ext"), ("ext", "jpg"), ("filename", "@ext.jpg")] = "jpg" ∧
    expandTemplate "@basename" [("ext", "jpg"), ("filename", "@ext.jpg"), ("basename", "@ext")] = "@ext" ∧
    ("jpg" : String) ≠ "@ext" := by
  decide

/-- C1 (amended): expandTemplate replaces, for each key in the mapping in
Go's (unspecified) map iteration order, every occurrence of the literal
substring "@"+key with that key's value, one replace-all pass per key in
sequence — so the result is determined by the template, the mapping and
the iteration order, and a template containing no key's placeholder is
left unchanged; but a value substituted for an earlier key is re-expanded
when it contains a later key's placeholder, so the expansion is not
single-generation and different iteration orders of the same mapping can
produce different results. -/
theorem expandTemplate_per_key_replace_all :
    (∀ (t k v : String) (rest : List (String × String)),
      expandTemplate t ((k, v) :: rest) = expandTemplate (goReplaceAll t ("@" ++ k) v) rest) ∧
    (∀ (t : String) (comps : List (String × String)),
      (∀ p ∈ comps, containsSub t.data ("@" ++ p.1).data = false) → expandTemplate t comps = t) :=
  ⟨fun t k v rest => expandTemplate_cons t k v rest,
   fun t comps h => expandTemplate_unchanged t comps h⟩

/-- C1 witness: a template with no placeholder of any supplied key is left
unchanged by expansion. -/
theorem expandTemplate_per_key_replace_all_witness :
    expandTemplate "no placeholders" [("basename", "beach"), ("ext", "jpg")] = "no placeholders" :=
  expandTemplate_per_key_replace_all.2 "no placeholders" [("basename", "beach"), ("ext", "jpg")]
    (by decide)

/-- C2 counterexample: with a field mapping that contains both "aperture"
and "aperture_friendly" as logical field names, the iteration order that
processes "aperture" last overwrites the binding of the logical field
"aperture_friendly": its first (and only) candidate "B" resolves to the
canonical value "x", yet the returned map binds it to "f/5.6" (the
friendly form of the other field), so extractExifFields does not bind
every logical field to the canonical value of its first non-empty
candidate for every mapping. -/
theorem extractExifFields_collision_counterexample :
    mapLookup (extractExifFields (some [⟨"A", some (.rats [(28, 5)])⟩, ⟨"B", some (.str "x")⟩])
        [("aperture_friendly", ["B"]), ("aperture", ["A"])]) "aperture_friendly" = some "f/5.6" ∧
    findExifValue [⟨"A", some (.rats [(28, 5)])⟩, ⟨"B", some (.str "x")⟩] "B" = "x" ∧
    some ("f/5.6" : String) ≠ some "x" := by
  decide

/-- C2 (amended): for every metadata container and every field mapping in
which no logical field name equals another logical field name suffixed
with "_friendly" (the keys of a Go map are distinct), extractExifFields
binds each logical field to the canonical value of the first candidate
EXIF tag whose lookup yields a non-empty value, regardless of iteration
order; the candidate search short-circuits, so for a first non-empty
candidate the later candidates are irrelevant; in particular, with mapping
iso -> [A, B] and a container holding B=400 but not A the resolved iso is
"400", and with both A=100 and B=400 present it is "100". -/
theorem extractExifFields_first_candidate_wins :
    (∀ (i : Ifd) (m : List (String × List String)) (f : String) (cands : List String),
      (m.map Prod.fst).Nodup →
      (∀ p ∈ m, ∀ q ∈ m, p.1 ≠ q.1 ++ "_friendly") →
      (f, cands) ∈ m →
      mapLookup (extractExifFields (some i) m) f = resolveCandidates i cands) ∧
    (∀ (i : Ifd) (pre : List String) (c : String) (post : List String),
      (∀ c2 ∈ pre, findExifValue i c2 = "") → findExifValue i c ≠ "" →
      resolveCandidates i (pre ++ c :: post) = some (findExifValue i c)) ∧
    mapLookup (extractExifFields (some [⟨"B", some (.u16s [400])⟩]) [("iso", ["A", "B"])]) "iso" =
      some "400" ∧
    mapLookup (extractExifFields (some [⟨"A", some (.u16s [100])⟩, ⟨"B", some (.u16s [400])⟩])
      [("iso", ["A", "B"])]) "iso" = some "100" := by
  refine ⟨?_, ?_, by decide, by decide⟩
  · intro i m f cands hnd hcol hmem
    exact (extractExifFields_lookup_pair i m f cands hnd hcol hmem).1
  · intro i pre c post hall hc
    exact resolveCandidates_first_found i c post pre hall hc

/-- C2 witness: the resolution equation instantiated at a concrete
container and mapping. -/
theorem extractExifFields_first_candidate_wins_witness :
    mapLookup (extractExifFields (some [⟨"B", some (.u16s [400])⟩]) [("iso", ["A", "B"])]) "iso" =
      resolveCandidates [⟨"B", some (.u16s [400])⟩] ["A", "B"] :=
  extractExifFields_first_candidate_wins.1 [⟨"B", some (.u16s [400])⟩] [("iso", ["A", "B"])]
    "iso" ["A", "B"] (by decide) (by decide) (by decide)

/-- C3 counterexample: the input "28/5abc" does not match the pattern
int/int (it has trailing text), yet formatFriendlyValue transforms it
rather than returning it unchanged, because Sscanf ignores input after the
two scanned integers. -/
theorem formatFriendlyValue_trailing_text_counterexample :
    formatFriendlyValue "aperture" "28/5abc" = "f/5.6" ∧ ("f/5.6" : String) ≠ "28/5abc" := by
  decide

/-- C3 (amended): formatFriendlyValue is total (it is a Lean function) and
returns its input unchanged whenever scanning the input with "%d/%d"
fails, or succeeds with a zero denominator, or the field name is none of
aperture, focal_length, exposure; however an input that merely fails to
match the full int/int pattern, such as one with trailing text after a
scannable fraction, is transformed rather than returned unchanged. -/
theorem formatFriendlyValue_unchanged_cases :
    ∀ (fieldName value : String),
    (goScanFrac value = none → formatFriendlyValue fieldName value = value) ∧
    (∀ n : Int, goScanFrac value = some (n, 0) → formatFriendlyValue fieldName value = value) ∧
    (fieldName ≠ "aperture" → fieldName ≠ "focal_length" → fieldName ≠ "exposure" →
      formatFriendlyValue fieldName value = value) := by
  intro fieldName value
  refine ⟨?_, ?_, ?_⟩
  · intro h
    unfold formatFriendlyValue
    rw [h]
  · intro n h
    unfold formatFriendlyValue
    rw [h]
    dsimp only
    rw [if_neg (by simp)]
  · intro h1 h2 h3
    unfold formatFriendlyValue
    cases goScanFrac value with
    | none => rfl
    | some nd =>
      obtain ⟨n, d⟩ := nd
      dsimp only
      by_cases hd : d ≠ 0
      · rw [if_pos hd, if_neg h1, if_neg h2, if_neg h3]
      · rw [if_neg hd]

/-- C3 witness: a zero-denominator fraction is returned unchanged. -/
theorem formatFriendlyValue_unchanged_cases_witness :
    formatFriendlyValue "aperture" "12/0" = "12/0" :=
  (formatFriendlyValue_unchanged_cases "aperture" "12/0").2.1 12 (by decide)

/-- C4: for every canonical value that scans as int/int with non-zero
denominator, formatFriendlyValue for field "exposure" returns the original
fraction string with an "s" suffix whatever the numerator: the
numerator==1 branch and the other branch of the source compute identical
outputs. -/
theorem formatFriendlyValue_exposure_branches :
    ∀ (v : String) (n d : Int), goScanFrac v = some (n, d) → d ≠ 0 →
    formatFriendlyValue "exposure" v = v ++ "s" := by
  intro v n d hscan hd
  unfold formatFriendlyValue
  rw [hscan]
  dsimp only
  rw [if_pos hd, if_neg (by decide), if_neg (by decide), if_pos rfl]
  by_cases h1 : n = 1
  · rw [if_pos h1]
  · rw [if_neg h1]

/-- C4 witness: the exposure rendering of "1/500". -/
theorem formatFriendlyValue_exposure_branches_witness :
    formatFriendlyValue "exposure" "1/500" = "1/500" ++ "s" :=
  formatFriendlyValue_exposure_branches "1/500" 1 500 (by decide) (by decide)

/-- C5 counterexample: slug generation is not idempotent for every title:
the title "!" slugs to the empty string, and re-slugging the empty string
takes the timestamp branch, producing "photo-0" (for unix time 0) instead
of the empty string. -/
theorem generateSlug_not_idempotent_counterexample :
    generateSlug "!" 0 = "" ∧
    generateSlug (generateSlug "!" 0) 0 = "photo-0" ∧
    generateSlug (generateSlug "!" 0) 0 ≠ generateSlug "!" 0 := by
  decide

/-- C5 (amended): slug generation is idempotent for every title whose slug
is non-empty (in particular for every already-valid slug and for the empty
title, whose slug is the non-empty timestamp form): with any fixed date d,
generateSlug (generateSlug x d) d = generateSlug x d whenever
generateSlug x d is not the empty string. -/
theorem generateSlug_idempotent_of_nonempty :
    ∀ (title : String) (d : Int), generateSlug title d ≠ "" →
    generateSlug (generateSlug title d) d = generateSlug title d := by
  intro title d h
  exact generateSlug_fixed d h (generateSlug_chars title d)

/-- C5 witness: idempotence at the title "Hello World!". -/
theorem generateSlug_idempotent_of_nonempty_witness :
    generateSlug (generateSlug "Hello World!" 0) 0 = generateSlug "Hello World!" 0 :=
  generateSlug_idempotent_of_nonempty "Hello World!" 0 (by decide)

/-- C6: the set of files the directory walk processes, and the batch
result, are independent of the per-photo outcomes — a processSinglePhoto
failure is recorded and the walk continues — and concretely a directory
with one corrupt image between two valid ones still processes all three,
with only the corrupt one failing and the batch succeeding. -/
theorem processDirectory_continues_on_error :
    (∀ (baseDir : String) (entries : List WalkEntry) (p1 p2 : PhotoProc),
      (processDirectory baseDir p1 entries).1.map Prod.fst =
        (processDirectory baseDir p2 entries).1.map Prod.fst ∧
      (processDirectory baseDir p1 entries).2 = (processDirectory baseDir p2 entries).2) ∧
    processDirectory "/photos"
        (fun p _ => if p = "/photos/corrupt.jpg" then some "corrupt image" else none)
        [⟨"/photos", true, none⟩, ⟨"/photos/good1.jpg", false, none⟩,
         ⟨"/photos/corrupt.jpg", false, none⟩, ⟨"/photos/good2.jpg", false, none⟩] =
      ([("/photos/good1.jpg", none), ("/photos/corrupt.jpg", some "corrupt image"),
        ("/photos/good2.jpg", none)], none) := by
  constructor
  · intro b e p1 p2
    exact walkAux_outcome_indep b p1 p2 e [] [] rfl
  · decide

/-- C7 counterexample: with a field mapping containing both "exposure" and
"exposure_friendly" as logical field names, the friendly form "1/500s" of
the exposure field overwrites the canonical entry of the logical field
"exposure_friendly" (whose own canonical value is "y"), so the canonical
entry does not keep the raw canonical value for every mapping. -/
theorem extractExifFields_friendly_overwrite_counterexample :
    mapLookup (extractExifFields (some [⟨"A", some (.rats [(1, 500)])⟩, ⟨"B", some (.str "y")⟩])
        [("exposure_friendly", ["B"]), ("exposure", ["A"])]) "exposure_friendly" = some "1/500s" ∧
    resolveCandidates [⟨"A", some (.rats [(1, 500)])⟩, ⟨"B", some (.str "y")⟩] ["B"] = some "y" ∧
    ("1/500s" : String) ≠ "y" := by
  decide

/-- C7 (amended): for every metadata container and every field mapping in
which no logical field name equals another logical field name suffixed
with "_friendly", a resolved field's canonical entry keeps the raw
canonical value — it is never overwritten by a friendly form — and the
friendly form is stored under the separate key name_friendly, which is
present exactly when the friendly string differs from the canonical
string. -/
theorem extractExifFields_friendly_sibling :
    ∀ (i : Ifd) (m : List (String × List String)) (f : String) (cands : List String) (v : String),
    (m.map Prod.fst).Nodup →
    (∀ p ∈ m, ∀ q ∈ m, p.1 ≠ q.1 ++ "_friendly") →
    (f, cands) ∈ m →
    resolveCandidates i cands = some v →
    mapLookup (extractExifFields (some i) m) f = some v ∧
    mapLookup (extractExifFields (some i) m) (f ++ "_friendly") =
      (if formatFriendlyValue f v = v then none else some (formatFriendlyValue f v)) := by
  intro i m f cands v hnd hcol hmem hres
  obtain ⟨h1, h2⟩ := extractExifFields_lookup_pair i m f cands hnd hcol hmem
  rw [hres] at h1 h2
  refine ⟨h1, ?_⟩
  rw [h2]
  dsimp only
  have hne : formatFriendlyValue f v ≠ "" :=
    formatFriendlyValue_ne_empty f (resolveCandidates_some_ne_empty hres)
  by_cases hd : formatFriendlyValue f v = v
  · rw [if_pos hd, if_neg (fun hc => hc.2 hd)]
  · rw [if_neg hd, if_pos ⟨hne, hd⟩]

/-- C7 witness: the canonical aperture entry keeps "28/5" and the sibling
aperture_friendly entry holds the differing friendly form. -/
theorem extractExifFields_friendly_sibling_witness :
    mapLookup (extractExifFields (some [⟨"FNumber", some (.rats [(28, 5)])⟩])
      [("aperture", ["FNumber"])]) "aperture" = some "28/5" ∧
    mapLookup (extractExifFields (some [⟨"FNumber", some (.rats [(28, 5)])⟩])
      [("aperture", ["FNumber"])]) ("aperture" ++ "_friendly") =
      (if formatFriendlyValue "aperture" "28/5" = "28/5" then none
       else some (formatFriendlyValue "aperture" "28/5")) :=
  extractExifFields_friendly_sibling [⟨"FNumber", some (.rats [(28, 5)])⟩]
    [("aperture", ["FNumber"])] "aperture" ["FNumber"] "28/5"
    (by decide) (by decide) (by decide) (by decide)

theorem pathCoreComponents_shape (fp : String) :
    ∃ fn e b, pathCoreComponents fp = [("filename", fn), ("ext", e), ("basename", b)] := by
  unfold pathCoreComponents
  dsimp only
  split
  · exact ⟨_, _, _, rfl⟩
  · exact ⟨_, _, _, rfl⟩

/-- C8: extractPathComponents always produces the keys filename, basename
and ext, for every file path and base directory; for every file path, base
directory and index m, the dirM binding is the m-th segment counted from
the one closest to the file (index into the reversed relative-directory
segment list, numbering increasing outward — the reverse of filesystem
order), present exactly for 1 ≤ m ≤ number of segments; no dirN binding
exists when the relative directory is "." (file directly under the base),
empty, or Rel fails; and concretely, for base "/root" and file
"/root/2025/vacation/beach.jpg" it yields dir1 "vacation", dir2 "2025",
basename "beach", ext "jpg", filename "beach.jpg" and no dir3, while
"/root/beach.jpg" gets no dir1. -/
theorem extractPathComponents_keys_and_reversal :
    (∀ filePath baseDir : String,
      (mapLookup (extractPathComponents filePath baseDir) "filename").isSome ∧
      (mapLookup (extractPathComponents filePath baseDir) "basename").isSome ∧
      (mapLookup (extractPathComponents filePath baseDir) "ext").isSome) ∧
    (∀ (filePath baseDir relDir : String),
      goFilepathRel baseDir (goFilepathDir filePath) = some relDir →
      relDir ≠ "." → relDir ≠ "" →
      ∀ m : Nat,
        mapLookup (extractPathComponents filePath baseDir) ("dir" ++ natDec m) =
          (if 1 ≤ m ∧ m < 1 + (splitSlash (goToSlash relDir)).length
           then some ((splitSlash (goToSlash relDir)).reverse.getD (m - 1) "")
           else none)) ∧
    (∀ (filePath baseDir : String),
      (goFilepathRel baseDir (goFilepathDir filePath) = some "." ∨
       goFilepathRel baseDir (goFilepathDir filePath) = some "" ∨
       goFilepathRel baseDir (goFilepathDir filePath) = none) →
      ∀ m : Nat, mapLookup (extractPathComponents filePath baseDir) ("dir" ++ natDec m) = none) ∧
    mapLookup (extractPathComponents "/root/2025/vacation/beach.jpg" "/root") "dir1" = some "vacation" ∧
    mapLookup (extractPathComponents "/root/2025/vacation/beach.jpg" "/root") "dir2" = some "2025" ∧
    mapLookup (extractPathComponents "/root/2025/vacation/beach.jpg" "/root") "basename" = some "beach" ∧
    mapLookup (extractPathComponents "/root/2025/vacation/beach.jpg" "/root") "ext" = some "jpg" ∧
    mapLookup (extractPathComponents "/root/2025/vacation/beach.jpg" "/root") "filename" = some "beach.jpg" ∧
    mapLookup (extractPathComponents "/root/2025/vacation/beach.jpg" "/root") "dir3" = none ∧
    mapLookup (extractPathComponents "/root/beach.jpg" "/root") "dir1" = none := by
  refine ⟨?_, ?_, ?_, by decide, by decide, by decide, by decide, by decide, by decide, by decide⟩
  · intro fp bd
    obtain ⟨fn, e, b, hshape⟩ := pathCoreComponents_shape fp
    rw [show extractPathComponents fp bd = pathCoreComponents fp ++ pathDirComponents fp bd from rfl,
      hshape]
    refine ⟨?_, ?_, ?_⟩ <;> simp [mapLookup, List.cons_append]
  · intro fp bd relDir hrel h1 h2 m
    obtain ⟨fn, e, b, hshape⟩ := pathCoreComponents_shape fp
    rw [show extractPathComponents fp bd = pathCoreComponents fp ++ pathDirComponents fp bd from rfl,
      hshape,
      mapLookup_core_skip fn e b _ _ (core_key_ne_dir (natDec m)).1
        (core_key_ne_dir (natDec m)).2.1 (core_key_ne_dir (natDec m)).2.2]
    unfold pathDirComponents
    rw [hrel]
    dsimp only
    rw [if_neg (by rintro (h | h); exacts [h1 h, h2 h])]
    unfold numberedDirs
    rw [numberedDirsAux_lookup]
    simp [List.length_reverse]
  · intro fp bd hcase m
    obtain ⟨fn, e, b, hshape⟩ := pathCoreComponents_shape fp
    rw [show extractPathComponents fp bd = pathCoreComponents fp ++ pathDirComponents fp bd from rfl,
      hshape,
      mapLookup_core_skip fn e b _ _ (core_key_ne_dir (natDec m)).1
        (core_key_ne_dir (natDec m)).2.1 (core_key_ne_dir (natDec m)).2.2]
    unfold pathDirComponents
    rcases hcase with h | h | h
    · rw [h]
      dsimp only
      rw [if_pos (Or.inl rfl)]
      rfl
    · rw [h]
      dsimp only
      rw [if_pos (Or.inr rfl)]
      rfl
    · rw [h]
      rfl

/-- C8 witness: the dirN characterization instantiated at the concrete
beach.jpg example (dir1 is "vacation", the segment closest to the file)
and the directly-under-base example (no dir1). -/
theorem extractPathComponents_keys_and_reversal_witness :
    mapLookup (extractPathComponents "/root/2025/vacation/beach.jpg" "/root") ("dir" ++ natDec 1) =
      (if 1 ≤ 1 ∧ 1 < 1 + (splitSlash (goToSlash "2025/vacation")).length
       then some ((splitSlash (goToSlash "2025/vacation")).reverse.getD (1 - 1) "")
       else none) ∧
    mapLookup (extractPathComponents "/root/beach.jpg" "/root") ("dir" ++ natDec 1) = none :=
  ⟨extractPathComponents_keys_and_reversal.2.1 "/root/2025/vacation/beach.jpg" "/root"
      "2025/vacation" (by decide) (by decide) (by decide) 1,
   extractPathComponents_keys_and_reversal.2.2.1 "/root/beach.jpg" "/root" (Or.inl (by decide)) 1⟩

/-- C9: the friendly round trip of the specification: canonical "28/5" for
field aperture renders as "f/5.6", and canonical "200/1" for focal_length
renders as "200.0mm". -/
theorem formatFriendlyValue_concrete_roundtrip :
    formatFriendlyValue "aperture" "28/5" = "f/5.6" ∧
    formatFriendlyValue "focal_length" "200/1" = "200.0mm" := by
  decide

/-- C10: formatFriendlyValue returns a non-empty string for every field
name and non-empty value, and consequently the fallback branch of
extractTags that inserts the raw canonical value when the friendly value
is empty is unreachable: extractTags coincides with the variant whose
fallback branch is removed. -/
theorem formatFriendlyValue_nonempty_fallback_unreachable :
    (∀ (fieldName value : String), value ≠ "" → formatFriendlyValue fieldName value ≠ "") ∧
    (∀ (ifd : Option Ifd) (m : List (String × List String)),
      extractTags ifd m = extractTagsNoFallback ifd m) := by
  constructor
  · intro f v hv
    exact formatFriendlyValue_ne_empty f hv
  · intro ifd m
    cases ifd with
    | none => rfl
    | some i =>
      unfold extractTags extractTagsNoFallback
      dsimp only
      have hstep : tagStep i = tagStepNoFallback i := by
        funext ts entry
        unfold tagStep tagStepNoFallback
        cases hres : resolveCandidates i entry.2 with
        | none => rfl
        | some v =>
          dsimp only
          rw [if_pos (formatFriendlyValue_ne_empty entry.1 (resolveCandidates_some_ne_empty hres))]
      rw [hstep]

/-- C10 witness: a non-empty canonical value yields a non-empty friendly
value. -/
theorem formatFriendlyValue_nonempty_fallback_unreachable_witness :
    formatFriendlyValue "iso" "400" ≠ "" :=
  formatFriendlyValue_nonempty_fallback_unreachable.1 "iso" "400" (by decide)
